import Mathlib

/-!
Shallow embedding of the waveForcast forecast-to-alert pipeline
(src/index.js and src/unnamed/part_000).

Modelling conventions:
* Timestamps are the millisecond values of parsed `Date`s, embedded as `ℤ`
  (JS `Date` comparisons and `Date.now()` arithmetic are exact integers in
  the relevant range).
* Wave heights and coordinates are JS numbers; they are embedded as `ℚ`.
  Where the exact IEEE-754 binary64 behaviour matters (`metersToCm`), the
  rounding of a real value to the nearest double is modelled exactly by
  `toDouble` below.
* Fallible JS code (`throw`/`try`/`catch`) is embedded in `Except JsError`.
-/

/-- A JS exception as observed by `catch (err)`: only its `message` is used. -/
structure JsError where
  message : String
deriving DecidableEq, Repr

/-- One exceedance hit, as pushed by `nextExceedances`:
`{ iso: time, meters: hourly.wave_height[i] }`.  The `iso` field holds the
parsed millisecond value of the ISO timestamp. -/
structure Hit where
  iso : ℤ
  meters : ℚ
deriving DecidableEq, Repr

/-- The `hourly` object of the provider payload.  Either parallel array may be
absent (`undefined`) in a malformed payload. -/
structure HourlyRaw where
  time : Option (List ℤ)
  wave_height : Option (List ℚ)
deriving DecidableEq, Repr

/-- The parsed JSON payload returned by the provider; the `hourly` field may be
absent in a malformed payload. -/
structure Payload where
  hourly : Option HourlyRaw
deriving DecidableEq, Repr

/-- The part of a `fetch` response that `fetchWaveForecast` inspects:
`res.ok`, `res.status`, and the parsed JSON body. -/
structure HttpResponse where
  ok : Bool
  status : ℕ
  body : Payload
deriving DecidableEq, Repr

/-- Configuration constants (from env in src/index.js, literals in
src/unnamed/part_000).  `thresholdStr` is the JS string rendering of the
threshold number (for the default `0.8` it is `"0.8"`); number-to-string
coercion of the threshold inside template literals is abstracted by this
field.  `tz` is the UTC offset of the configured timezone in milliseconds. -/
structure Config where
  threshold : ℚ
  thresholdStr : String
  days : ℤ
  tz : ℤ
deriving DecidableEq, Repr

/-- Loop body shared by both `nextExceedances` variants in src/index.js
(lines 54-58): walk `time` and `wave_height` in parallel; an hour with
`t > cutoff` is skipped (`return` inside `forEach`); otherwise it is a hit
iff `wave_height[i] >= threshold`.  When `wave_height` is shorter than
`time`, `hourly.wave_height[i]` is `undefined` and `undefined >= threshold`
is false, so no further hit can be produced. -/
def scanHits : List ℤ → List ℚ → ℚ → ℤ → List Hit
  | [], _, _, _ => []
  | t :: ts, hs, thr, cutoff =>
    match hs with
    | [] => []
    | h :: hs' =>
      if cutoff < t then scanHits ts hs' thr cutoff
      else if thr ≤ h then ⟨t, h⟩ :: scanHits ts hs' thr cutoff
      else scanHits ts hs' thr cutoff

/-- The `nextExceedances` of src/index.js (lines 49-61): `forEach` over the
whole series, skipping each hour past the cutoff. -/
def nextExceedances (times : List ℤ) (heights : List ℚ) (threshold : ℚ)
    (daysAhead : ℤ) (now : ℤ) : List Hit :=
  scanHits times heights threshold (now + daysAhead * 24 * 3600 * 1000)

/-- Loop body of the `nextExceedances` of src/unnamed/part_000 (lines 61-73):
a `for` loop that `break`s at the first hour past the cutoff. -/
def scanHitsBrk : List ℤ → List ℚ → ℚ → ℤ → List Hit
  | [], _, _, _ => []
  | t :: ts, hs, thr, cutoff =>
    match hs with
    | [] => []
    | h :: hs' =>
      if cutoff < t then []
      else if thr ≤ h then ⟨t, h⟩ :: scanHitsBrk ts hs' thr cutoff
      else scanHitsBrk ts hs' thr cutoff

/-- The `nextExceedances` of src/unnamed/part_000 (lines 61-73): stops at the
first timestamp past the cutoff. -/
def nextExceedancesBrk (times : List ℤ) (heights : List ℚ) (threshold : ℚ)
    (daysAhead : ℤ) (now : ℤ) : List Hit :=
  scanHitsBrk times heights threshold (now + daysAhead * 24 * 3600 * 1000)

/-- The input series seen as a list of candidate hits: the `i`-th hour paired
with the `i`-th height (extra entries of the longer array are inert in the
source, exactly as `zip` drops them). -/
def zipHits (times : List ℤ) (heights : List ℚ) : List Hit :=
  (times.zip heights).map fun p => ⟨p.1, p.2⟩

example : nextExceedances [0, 1000, 2000] [1, (1:ℚ)/2, 2] ((8:ℚ)/10) 2 0 =
    [⟨0, 1⟩, ⟨2000, 2⟩] := by norm_num [nextExceedances, scanHits]

example : nextExceedances [10, 0] [1, 1] ((8:ℚ)/10) 0 5 = [⟨0, 1⟩] := by
  norm_num [nextExceedances, scanHits]

example : nextExceedancesBrk [10, 0] [1, 1] ((8:ℚ)/10) 0 5 = [] := by
  norm_num [nextExceedancesBrk, scanHitsBrk]

/-- Round a rational to the nearest integer, ties to even (the IEEE-754
default rounding used by JS arithmetic). -/
def rne (q : ℚ) : ℤ :=
  let f := ⌊q⌋
  if q - f < 1/2 then f
  else if (1:ℚ)/2 < q - f then f + 1
  else if f % 2 = 0 then f else f + 1

/-- Integer power of two as a rational, for a possibly negative exponent. -/
def pow2 (k : ℤ) : ℚ := (2:ℚ) ^ k

/-- Fueled floor of the base-2 logarithm of a positive rational: the unique
`e` with `2 ^ e ≤ q < 2 ^ (e + 1)`, found by repeated halving/doubling. -/
def log2floorAux : ℕ → ℚ → ℤ
  | 0, _ => 0
  | fuel + 1, q =>
    if q < 1 then log2floorAux fuel (2 * q) - 1
    else if 2 ≤ q then log2floorAux fuel (q / 2) + 1
    else 0

/-- Floor of the base-2 logarithm of a positive rational.  The fuel 64 covers
every binary exponent occurring in this program's values. -/
def log2floor (q : ℚ) : ℤ := log2floorAux 64 q

/-- Round a positive rational to the nearest IEEE-754 binary64 value
(normal range; round to nearest, ties to even): scale into the 53-bit
mantissa window `[2^52, 2^53)`, round to an integer and scale back. -/
def roundDoublePos (q : ℚ) : ℚ :=
  let e := log2floor q
  (rne (q * pow2 (52 - e)) : ℚ) * pow2 (e - 52)

/-- The exact rational value of the IEEE-754 binary64 number nearest to `q`
(normal range; overflow and subnormals do not occur in this program).
A JS number literal such as `1.005` denotes `toDouble (1005/1000)`. -/
def toDouble (q : ℚ) : ℚ :=
  if q = 0 then 0
  else if 0 < q then roundDoublePos q
  else -roundDoublePos (-q)

/-- JS multiplication of two doubles: the exact product, rounded back to the
nearest binary64 value. -/
def jsMul (a b : ℚ) : ℚ := toDouble (a * b)

/-- The `metersToCm` helper (src/index.js line 33, src/unnamed/part_000
lines 49-51): `Math.round(m * 100)`.  The multiplication `m * 100` is
binary64 (`jsMul`); `Math.round` returns the integer closest to its
argument's exact value, ties toward positive infinity, i.e. `⌊x + 1/2⌋`. -/
def metersToCm (m : ℚ) : ℤ := ⌊jsMul m 100 + 1/2⌋

/-- Left-pad a numeral below 100 to two digits, as `2-digit` time fields. -/
def pad2 (n : ℕ) : String := if n < 10 then "0" ++ toString n else toString n

/-- Left-pad a numeral below 1000 to three digits. -/
def pad3 (n : ℕ) : String :=
  if n < 10 then "00" ++ toString n
  else if n < 100 then "0" ++ toString n
  else toString n

/-- The `fmtHourLocal` helper (src/index.js lines 35-40):
`new Date(iso).toLocaleTimeString('en-IL', 2-digit hour/minute, timeZone)`,
modelled at the fixed UTC offset `tz` (milliseconds) of the configured
timezone: hour and minute of the shifted timestamp, two digits each. -/
def fmtHourLocal (tz : ℤ) (t : ℤ) : String :=
  let loct := t + tz
  pad2 ((loct.fdiv 3600000) % 24).toNat ++ ":" ++ pad2 ((loct.fdiv 60000) % 60).toNat

/-- JS `Number.prototype.toFixed(3)`: the decimal string with exactly three
fraction digits denoting `n / 1000` where `n` is the integer closest to
`q * 1000` (ties toward the larger `n`, per ECMA-262), i.e. `⌊q*1000+1/2⌋`. -/
def toFixed3 (q : ℚ) : String :=
  let n : ℤ := ⌊q * 1000 + 1/2⌋
  let sign := if n < 0 then "-" else ""
  sign ++ toString (n.natAbs / 1000) ++ "." ++ pad3 (n.natAbs % 1000)

/-- Weekday index of a timestamp at fixed UTC offset `tz`: days since the
epoch (1970-01-01 was a Thursday), shifted so `0` is Sunday, modulo 7. -/
def dayIdx (tz : ℤ) (t : ℤ) : ℤ := ((t + tz).fdiv 86400000 + 4) % 7

/-- Short English weekday name for a weekday index in `[0, 7)`. -/
def dayName (i : ℤ) : String :=
  ["Sun", "Mon", "Tue", "Wed", "Thu", "Fri", "Sat"].getD i.toNat ""

/-- The grouping key of src/index.js line 85 / src/unnamed/part_000 line 88:
`new Date(h.iso).toLocaleDateString('en-IL', weekday short, timeZone)` —
only the short weekday name, not the full date. -/
def dayLabel (tz : ℤ) (t : ℤ) : String := dayName (dayIdx tz t)

/-- One step of the grouping accumulator (src/index.js lines 84-89):
`acc[day] = acc[day] || []; acc[day].push(h)` on an insertion-ordered
object, i.e. append to the first entry with this key, or add a new entry
at the end. -/
def insertHit (acc : List (String × List Hit)) (k : String) (h : Hit) :
    List (String × List Hit) :=
  match acc with
  | [] => [(k, [h])]
  | (k', l) :: rest =>
    if k' = k then (k', l ++ [h]) :: rest else (k', l) :: insertHit rest k h

/-- The day-grouping of src/index.js lines 84-89 (`hits.reduce`) and
src/unnamed/part_000 lines 86-91 (`for` loop over `hits`): bucket the hits
by their weekday label, insertion-ordered. -/
def groupHits (tz : ℤ) (hits : List Hit) : List (String × List Hit) :=
  hits.foldl (fun acc h => insertHit acc (dayLabel tz h.iso) h) []

/-- The list of hits stored under key `k` (JS property lookup `grouped[k]`,
with `[]` for an absent key). -/
def bucket (g : List (String × List Hit)) (k : String) : List Hit :=
  match g with
  | [] => []
  | (k', l) :: rest => if k' = k then l else bucket rest k

/-- The peak fold of src/index.js line 92 / src/unnamed/part_000 line 94:
`arr.reduce((a, b) => (a.meters > b.meters ? a : b))` — `a` is the
accumulator, starting from the first element. -/
def peakHit : Hit → List Hit → Hit
  | a, [] => a
  | a, b :: rest => peakHit (if b.meters < a.meters then a else b) rest

/-- One rendered per-day line (src/index.js line 93):
`- <day>: peak ~<cm> cm at <hh:mm>`.  A bucket produced by `groupHits` is
never empty; on the empty list (where the JS `reduce` would throw) the
model returns the empty string. -/
def renderLine (tz : ℤ) : String × List Hit → String
  | (_, []) => ""
  | (day, a :: rest) =>
    let mx := peakHit a rest
    "- " ++ day ++ ": peak ~" ++ toString (metersToCm mx.meters) ++ " cm at " ++
      fmtHourLocal tz mx.iso

/-- A configured location (`{ name, lat, lon }`). -/
structure Location where
  name : String
  lat : ℚ
  lon : ℚ
deriving DecidableEq, Repr

/-- The no-exceedance report line of src/index.js line 82.  That source file
is double-encoded: the bytes on the line decode (as the UTF-8 Node reads) to
the three characters U+00E2 U+2030 U+00A5, spelled `â‰¥`, not to the single
Unicode U+2265 `≥` character. -/
def noWavesLine (name : String) (cfg : Config) : String :=
  "[" ++ name ++ "] No waves â‰¥ " ++ cfg.thresholdStr ++ "m in next " ++
    toString cfg.days ++ " days"

/-- The no-exceedance report line of src/unnamed/part_000 lines 81-83: that
file carries the genuine Unicode U+2265 `≥` character. -/
def noWavesLineP0 (name : String) (cfg : Config) : String :=
  "[" ++ name ++ "] No waves ≥ " ++ cfg.thresholdStr ++ "m in next " ++
    toString cfg.days ++ " days"

/-- The per-location error report line (src/index.js line 102):
`[<name>] Error: <message>`. -/
def errorLine (name msg : String) : String := "[" ++ name ++ "] Error: " ++ msg

/-- The report header line of src/index.js line 97.  As with `noWavesLine`,
the double-encoded source literally contains the four characters
U+00F0 U+0178 U+0152 U+0160, spelled `ðŸŒŠ`, not the single U+1F30A
wave emoji carried by src/unnamed/part_000 line 99. -/
def headerLine (loc : Location) : String :=
  "ðŸŒŠ " ++ loc.name ++ " (Lat/Lon: " ++ toFixed3 loc.lat ++ ", " ++
    toFixed3 loc.lon ++ ")"

/-- The threshold line (src/index.js line 98):
`Threshold: ${Math.round(THRESHOLD_METERS * 100)} cm` — the same rounding
expression as `metersToCm`. -/
def thresholdLine (cfg : Config) : String :=
  "Threshold: " ++ toString (metersToCm cfg.threshold) ++ " cm"

/-- The body of `checkLocation`'s `try` block (src/index.js lines 78-100),
as an `Except` computation.  The fetch is abstracted into its result.
Accessing a field of an absent (`undefined`) object throws a `TypeError`:
`forecast.hourly` absent makes `hourly.time` throw, `hourly.time` absent
makes `.forEach` throw, and an absent `hourly.wave_height` makes
`hourly.wave_height[i]` throw at the first hour not past the cutoff (if
every hour is past the cutoff that line is never reached and the hit list
stays empty). -/
def checkBody (cfg : Config) (now : ℤ) (loc : Location)
    (fetchResult : Except JsError Payload) : Except JsError String :=
  match fetchResult with
  | .error e => .error e
  | .ok forecast =>
    match forecast.hourly with
    | none => .error ⟨"Cannot read properties of undefined (reading 'time')"⟩
    | some hourly =>
      match hourly.time with
      | none => .error ⟨"Cannot read properties of undefined (reading 'forEach')"⟩
      | some times =>
        let cutoff := now + cfg.days * 24 * 3600 * 1000
        match hourly.wave_height with
        | none =>
          if times.all fun t => decide (cutoff < t) then
            .ok (noWavesLine loc.name cfg)
          else
            .error ⟨"Cannot read properties of undefined (reading '0')"⟩
        | some heights =>
          let hits := scanHits times heights cfg.threshold cutoff
          if hits.isEmpty then .ok (noWavesLine loc.name cfg)
          else
            .ok (String.intercalate "\n"
              (headerLine loc :: thresholdLine cfg ::
                (groupHits cfg.tz hits).map (renderLine cfg.tz)))

/-- `checkLocation` (src/index.js lines 77-104): run the body and convert any
caught error into the one-line error report. -/
def checkLocation (cfg : Config) (now : ℤ) (loc : Location)
    (fetchResult : Except JsError Payload) : String :=
  match checkBody cfg now loc fetchResult with
  | .ok s => s
  | .error e => errorLine loc.name e.message

/-- The per-location reports of one run (src/index.js line 111:
`Promise.all(LOCATIONS.map(checkLocation))`): one block per configured
location, in input order, each depending only on its own fetch result. -/
def runOnceReports (cfg : Config) (now : ℤ) (locs : List Location)
    (fetchOf : Location → Except JsError Payload) : List String :=
  locs.map fun l => checkLocation cfg now l (fetchOf l)

/-- The composite message of one run (src/index.js line 112:
`reports.join('\n\n')`). -/
def runOnceMessage (cfg : Config) (now : ℤ) (locs : List Location)
    (fetchOf : Location → Except JsError Payload) : String :=
  String.intercalate "\n\n" (runOnceReports cfg now locs fetchOf)

/-- `fetchWaveForecast` (src/index.js lines 42-47): throw
`new Error('API error ' + res.status)` on a non-success status, otherwise
return the parsed JSON body unexamined. -/
def fetchWaveForecast (res : HttpResponse) : Except JsError Payload :=
  if res.ok then .ok res.body
  else .error ⟨"API error " ++ toString res.status⟩

/-! ## Properties of the exceedance detector -/

lemma scanHits_sound (ts : List ℤ) (hs : List ℚ) (thr : ℚ) (cutoff : ℤ) :
    ∀ hit ∈ scanHits ts hs thr cutoff, thr ≤ hit.meters ∧ hit.iso ≤ cutoff := by
  induction ts generalizing hs with
  | nil => simp [scanHits]
  | cons t ts ih =>
    cases hs with
    | nil => simp [scanHits]
    | cons h hs' =>
      intro hit hmem
      simp only [scanHits] at hmem
      by_cases hc : cutoff < t
      · rw [if_pos hc] at hmem
        exact ih hs' hit hmem
      · rw [if_neg hc] at hmem
        by_cases hthr : thr ≤ h
        · rw [if_pos hthr] at hmem
          rcases List.mem_cons.mp hmem with rfl | hm
          · exact ⟨hthr, le_of_not_lt hc⟩
          · exact ih hs' hit hm
        · rw [if_neg hthr] at hmem
          exact ih hs' hit hmem

lemma scanHits_complete (ts : List ℤ) (hs : List ℚ) (thr : ℚ) (cutoff : ℤ) :
    ∀ (i : ℕ) (t : ℤ) (h : ℚ), ts[i]? = some t → hs[i]? = some h →
      t ≤ cutoff → thr ≤ h → (⟨t, h⟩ : Hit) ∈ scanHits ts hs thr cutoff := by
  induction ts generalizing hs with
  | nil => intro i t h hti; simp at hti
  | cons t0 ts ih =>
    intro i t h hti hhi hle hthr
    cases hs with
    | nil => simp at hhi
    | cons h0 hs' =>
      simp only [scanHits]
      cases i with
      | zero =>
        simp only [List.getElem?_cons_zero, Option.some_inj] at hti hhi
        subst hti; subst hhi
        rw [if_neg (not_lt.mpr hle), if_pos hthr]
        exact List.mem_cons_self _ _
      | succ i =>
        have hmem := ih hs' i t h (by simpa using hti) (by simpa using hhi) hle hthr
        by_cases hc : cutoff < t0
        · rwa [if_pos hc]
        · rw [if_neg hc]
          by_cases hthr0 : thr ≤ h0
          · rw [if_pos hthr0]
            exact List.mem_cons_of_mem _ hmem
          · rwa [if_neg hthr0]

lemma scanHits_nil_of_all_gt (ts : List ℤ) (hs : List ℚ) (thr : ℚ) (cutoff : ℤ)
    (hgt : ∀ t ∈ ts, cutoff < t) : scanHits ts hs thr cutoff = [] := by
  induction ts generalizing hs with
  | nil => simp [scanHits]
  | cons t ts ih =>
    cases hs with
    | nil => simp [scanHits]
    | cons h hs' =>
      simp only [scanHits]
      rw [if_pos (hgt t (List.mem_cons_self _ _))]
      exact ih hs' fun t' ht' => hgt t' (List.mem_cons_of_mem _ ht')

lemma scanHits_eq_brk (ts : List ℤ) (hs : List ℚ) (thr : ℚ) (cutoff : ℤ)
    (hsort : ts.Pairwise (· ≤ ·)) :
    scanHitsBrk ts hs thr cutoff = scanHits ts hs thr cutoff := by
  induction ts generalizing hs with
  | nil => simp [scanHits, scanHitsBrk]
  | cons t ts ih =>
    cases hs with
    | nil => simp [scanHits, scanHitsBrk]
    | cons h hs' =>
      rcases List.pairwise_cons.mp hsort with ⟨hhead, htail⟩
      simp only [scanHits, scanHitsBrk]
      by_cases hc : cutoff < t
      · rw [if_pos hc, if_pos hc,
          scanHits_nil_of_all_gt ts hs' thr cutoff fun t' ht' => lt_of_lt_of_le hc (hhead t' ht')]
      · rw [if_neg hc, if_neg hc, ih hs' htail]

lemma zipHits_nil_left (hs : List ℚ) : zipHits [] hs = [] := by simp [zipHits]

lemma zipHits_nil_right (ts : List ℤ) : zipHits ts [] = [] := by simp [zipHits]

lemma zipHits_cons (t : ℤ) (ts : List ℤ) (h : ℚ) (hs : List ℚ) :
    zipHits (t :: ts) (h :: hs) = ⟨t, h⟩ :: zipHits ts hs := by simp [zipHits]

lemma scanHits_sublist (ts : List ℤ) (hs : List ℚ) (thr : ℚ) (cutoff : ℤ) :
    List.Sublist (scanHits ts hs thr cutoff) (zipHits ts hs) := by
  induction ts generalizing hs with
  | nil => simp [scanHits, zipHits]
  | cons t ts ih =>
    cases hs with
    | nil => simp [scanHits, zipHits]
    | cons h hs' =>
      rw [zipHits_cons]
      simp only [scanHits]
      by_cases hc : cutoff < t
      · rw [if_pos hc]
        exact (ih hs').cons _
      · rw [if_neg hc]
        by_cases hthr : thr ≤ h
        · rw [if_pos hthr]
          exact (ih hs').cons₂ _
        · rw [if_neg hthr]
          exact (ih hs').cons _

lemma scanHitsBrk_sublist (ts : List ℤ) (hs : List ℚ) (thr : ℚ) (cutoff : ℤ) :
    List.Sublist (scanHitsBrk ts hs thr cutoff) (zipHits ts hs) := by
  induction ts generalizing hs with
  | nil => simp [scanHitsBrk, zipHits]
  | cons t ts ih =>
    cases hs with
    | nil => simp [scanHitsBrk, zipHits]
    | cons h hs' =>
      rw [zipHits_cons]
      simp only [scanHitsBrk]
      by_cases hc : cutoff < t
      · rw [if_pos hc]
        exact (List.nil_sublist _)
      · rw [if_neg hc]
        by_cases hthr : thr ≤ h
        · rw [if_pos hthr]
          exact (ih hs').cons₂ _
        · rw [if_neg hthr]
          exact (ih hs').cons _

lemma zipHits_pairwise (ts : List ℤ) (hs : List ℚ) (hsort : ts.Pairwise (· ≤ ·)) :
    (zipHits ts hs).Pairwise fun a b => a.iso ≤ b.iso := by
  induction ts generalizing hs with
  | nil => simp [zipHits]
  | cons t ts ih =>
    cases hs with
    | nil => simp [zipHits]
    | cons h hs' =>
      rcases List.pairwise_cons.mp hsort with ⟨hhead, htail⟩
      rw [zipHits_cons]
      refine List.pairwise_cons.mpr ⟨?_, ih hs' htail⟩
      intro b hb
      rcases List.mem_map.mp hb with ⟨p, hp, rfl⟩
      exact hhead p.1 (List.of_mem_zip hp).1

/-- C1: for every hourly series, threshold, lookahead and fixed `now`, the hit
list of the exceedance detector contains exactly the input hours with
`height >= threshold` and `timestamp <= now + lookaheadDays` days: every
returned hit satisfies both conditions and every input hour satisfying both
appears in the result.  This holds unconditionally for the scan-all variant
(src/index.js) and, for the break-at-cutoff variant (src/unnamed/part_000),
for every series that is ascending in time, as the `HourlySeries` data model
requires. -/
theorem detector_sound_complete (times : List ℤ) (heights : List ℚ) (thr : ℚ)
    (days now : ℤ) :
    (∀ hit ∈ nextExceedances times heights thr days now,
        thr ≤ hit.meters ∧ hit.iso ≤ now + days * 24 * 3600 * 1000)
    ∧ (∀ (i : ℕ) (t : ℤ) (h : ℚ), times[i]? = some t → heights[i]? = some h →
        t ≤ now + days * 24 * 3600 * 1000 → thr ≤ h →
        (⟨t, h⟩ : Hit) ∈ nextExceedances times heights thr days now)
    ∧ (times.Pairwise (· ≤ ·) →
        (∀ hit ∈ nextExceedancesBrk times heights thr days now,
            thr ≤ hit.meters ∧ hit.iso ≤ now + days * 24 * 3600 * 1000)
        ∧ (∀ (i : ℕ) (t : ℤ) (h : ℚ), times[i]? = some t → heights[i]? = some h →
            t ≤ now + days * 24 * 3600 * 1000 → thr ≤ h →
            (⟨t, h⟩ : Hit) ∈ nextExceedancesBrk times heights thr days now)) := by
  refine ⟨scanHits_sound _ _ _ _, scanHits_complete _ _ _ _, fun hsort => ?_⟩
  rw [nextExceedancesBrk, scanHits_eq_brk _ _ _ _ hsort]
  exact ⟨scanHits_sound _ _ _ _, scanHits_complete _ _ _ _⟩

theorem detector_sound_complete_witness :
    ((⟨0, 1⟩ : Hit) ∈ nextExceedances [0, 172800000] [1, 2] 1 2 0)
    ∧ ((⟨0, 1⟩ : Hit) ∈ nextExceedancesBrk [0, 172800000] [1, 2] 1 2 0) := by
  have h := detector_sound_complete [0, 172800000] [1, 2] 1 2 0
  exact ⟨h.2.1 0 0 1 rfl rfl (by decide) (by decide),
    (h.2.2 (by decide)).2 0 0 1 rfl rfl (by decide) (by decide)⟩

/-- C7: on every series whose timestamps are ascending, the scan-all detector
of src/index.js and the break-at-cutoff detector of src/unnamed/part_000
return identical hit lists. -/
theorem detector_variants_agree (times : List ℤ) (heights : List ℚ) (thr : ℚ)
    (days now : ℤ) (hsort : times.Pairwise (· ≤ ·)) :
    nextExceedances times heights thr days now =
      nextExceedancesBrk times heights thr days now :=
  (scanHits_eq_brk _ _ _ _ hsort).symm

theorem detector_variants_agree_witness :
    nextExceedances [0, 3600000, 172800000, 259200000] [1, 0, 2, 3] 1 2 0 =
      nextExceedancesBrk [0, 3600000, 172800000, 259200000] [1, 0, 2, 3] 1 2 0 :=
  detector_variants_agree [0, 3600000, 172800000, 259200000] [1, 0, 2, 3] 1 2 0
    (by decide)

/-- C8: the hit list of either detector variant is a sublist of the input
hours (same relative order, so ties are never reordered), and for an
ascending input the returned timestamps are in non-decreasing order. -/
theorem detector_sublist (times : List ℤ) (heights : List ℚ) (thr : ℚ)
    (days now : ℤ) :
    List.Sublist (nextExceedances times heights thr days now) (zipHits times heights)
    ∧ List.Sublist (nextExceedancesBrk times heights thr days now) (zipHits times heights)
    ∧ (times.Pairwise (· ≤ ·) →
        ((nextExceedances times heights thr days now).map Hit.iso).Pairwise (· ≤ ·)
        ∧ ((nextExceedancesBrk times heights thr days now).map Hit.iso).Pairwise (· ≤ ·)) := by
  refine ⟨scanHits_sublist _ _ _ _, scanHitsBrk_sublist _ _ _ _, fun hsort => ?_⟩
  constructor
  · exact List.pairwise_map.mpr
      ((zipHits_pairwise _ _ hsort).sublist (scanHits_sublist _ _ _ _))
  · exact List.pairwise_map.mpr
      ((zipHits_pairwise _ _ hsort).sublist (scanHitsBrk_sublist _ _ _ _))

theorem detector_sublist_witness :
    ((nextExceedances [0, 3600000, 7200000] [2, 1, 3] 1 2 0).map Hit.iso).Pairwise (· ≤ ·) :=
  ((detector_sublist [0, 3600000, 7200000] [2, 1, 3] 1 2 0).2.2 (by decide)).1

/-! ## Properties of day-grouping and peak selection -/

lemma bucket_insertHit (acc : List (String × List Hit)) (k k' : String) (h : Hit) :
    bucket (insertHit acc k h) k' =
      bucket acc k' ++ if k = k' then [h] else [] := by
  induction acc with
  | nil =>
    by_cases hk : k = k' <;> simp [insertHit, bucket, hk]
  | cons p rest ih =>
    obtain ⟨k0, l0⟩ := p
    simp only [insertHit]
    by_cases h0 : k0 = k
    · rw [if_pos h0]
      simp only [bucket]
      by_cases h1 : k0 = k'
      · rw [if_pos h1, if_pos h1, if_pos (h0 ▸ h1)]
      · rw [if_neg h1, if_neg h1, if_neg (fun hkk => h1 (h0.trans hkk)),
          List.append_nil]
    · rw [if_neg h0]
      simp only [bucket]
      by_cases h1 : k0 = k'
      · rw [if_pos h1, if_pos h1,
          if_neg (fun hkk => h0 (h1.trans hkk.symm)), List.append_nil]
      · rw [if_neg h1, if_neg h1, ih]

lemma bucket_foldl (tz : ℤ) (hits : List Hit) (acc : List (String × List Hit))
    (k : String) :
    bucket (hits.foldl (fun acc h => insertHit acc (dayLabel tz h.iso) h) acc) k =
      bucket acc k ++ hits.filter fun h => dayLabel tz h.iso == k := by
  induction hits generalizing acc with
  | nil => simp
  | cons h hits ih =>
    simp only [List.foldl_cons, List.filter_cons]
    rw [ih, bucket_insertHit]
    by_cases hk : dayLabel tz h.iso = k
    · rw [if_pos hk]
      simp [hk, List.append_assoc]
    · rw [if_neg hk]
      simp [hk]

lemma groupHits_bucket (tz : ℤ) (hits : List Hit) (k : String) :
    bucket (groupHits tz hits) k = hits.filter fun h => dayLabel tz h.iso == k := by
  rw [groupHits, bucket_foldl]
  rfl

lemma dayIdx_add_week (tz t : ℤ) : dayIdx tz (t + 7 * 86400000) = dayIdx tz t := by
  unfold dayIdx
  have harr : t + 7 * 86400000 + tz = (t + tz) + 7 * 86400000 := by ring
  rw [harr, Int.fdiv_eq_ediv _ (by norm_num), Int.fdiv_eq_ediv _ (by norm_num),
    Int.add_mul_ediv_right _ _ (by norm_num)]
  omega

/-- C3: the grouping step buckets hits solely by their weekday label: the
bucket stored under any label is exactly the sublist of hits carrying that
label (so the peak line rendered for a bucket covers all of them), any two
hits with equal labels land in the same bucket, and the label is 7-day
periodic, so hits from different calendar weeks can share a bucket. -/
theorem grouping_by_weekday (tz : ℤ) (hits : List Hit) :
    (∀ k, bucket (groupHits tz hits) k = hits.filter fun h => dayLabel tz h.iso == k)
    ∧ (∀ h₁ ∈ hits, ∀ h₂ ∈ hits, dayLabel tz h₁.iso = dayLabel tz h₂.iso →
        h₁ ∈ bucket (groupHits tz hits) (dayLabel tz h₂.iso)
        ∧ h₂ ∈ bucket (groupHits tz hits) (dayLabel tz h₂.iso))
    ∧ (∀ t : ℤ, dayLabel tz (t + 7 * 86400000) = dayLabel tz t) := by
  refine ⟨groupHits_bucket tz hits, ?_, ?_⟩
  · intro h₁ hm₁ h₂ hm₂ heq
    rw [groupHits_bucket]
    constructor
    · exact List.mem_filter.mpr ⟨hm₁, by simp [heq]⟩
    · exact List.mem_filter.mpr ⟨hm₂, by simp⟩
  · intro t
    rw [dayLabel, dayLabel, dayIdx_add_week]

theorem grouping_by_weekday_witness :
    (⟨0, 1⟩ : Hit) ∈ bucket (groupHits 0 [⟨0, 1⟩, ⟨604800000, 2⟩])
      (dayLabel 0 604800000)
    ∧ (⟨604800000, 2⟩ : Hit) ∈ bucket (groupHits 0 [⟨0, 1⟩, ⟨604800000, 2⟩])
      (dayLabel 0 604800000) :=
  (grouping_by_weekday 0 [⟨0, 1⟩, ⟨604800000, 2⟩]).2.1
    ⟨0, 1⟩ (by decide) ⟨604800000, 2⟩ (by decide) (by decide)

lemma peakHit_mem (a : Hit) (l : List Hit) : peakHit a l ∈ a :: l := by
  induction l generalizing a with
  | nil => simp [peakHit]
  | cons b l ih =>
    simp only [peakHit]
    by_cases hb : b.meters < a.meters
    · rw [if_pos hb]
      rcases List.mem_cons.mp (ih a) with h | h
      · rw [h]; exact List.mem_cons_self _ _
      · exact List.mem_cons_of_mem _ (List.mem_cons_of_mem _ h)
    · rw [if_neg hb]
      rcases List.mem_cons.mp (ih b) with h | h
      · rw [h]; exact List.mem_cons_of_mem _ (List.mem_cons_self _ _)
      · exact List.mem_cons_of_mem _ (List.mem_cons_of_mem _ h)

lemma peakHit_le (a : Hit) (l : List Hit) :
    ∀ b ∈ a :: l, b.meters ≤ (peakHit a l).meters := by
  induction l generalizing a with
  | nil =>
    intro b hb
    rcases List.mem_cons.mp hb with rfl | h
    · simp [peakHit]
    · simp at h
  | cons c l ih =>
    intro b hb
    simp only [peakHit]
    have hda : a.meters ≤ (if c.meters < a.meters then a else c).meters := by
      by_cases hc : c.meters < a.meters
      · rw [if_pos hc]
      · rw [if_neg hc]; exact le_of_not_lt hc
    have hdc : c.meters ≤ (if c.meters < a.meters then a else c).meters := by
      by_cases hc : c.meters < a.meters
      · rw [if_pos hc]; exact le_of_lt hc
      · rw [if_neg hc]
    have hpeak := ih (if c.meters < a.meters then a else c)
    rcases List.mem_cons.mp hb with h | hb'
    · rw [h]
      exact le_trans hda (hpeak _ (List.mem_cons_self _ _))
    · rcases List.mem_cons.mp hb' with h | hb''
      · rw [h]
        exact le_trans hdc (hpeak _ (List.mem_cons_self _ _))
      · exact hpeak b (List.mem_cons_of_mem _ hb'')

lemma peakHit_append (a : Hit) (l : List Hit) (b : Hit) :
    peakHit a (l ++ [b]) =
      if b.meters < (peakHit a l).meters then peakHit a l else b := by
  induction l generalizing a with
  | nil => simp [peakHit]
  | cons c l ih =>
    simp only [List.cons_append, List.append_eq, peakHit]
    rw [ih]

/-- C6 counterexample: on a bucket of two hits with equal heights, the
reduce of src/index.js line 92 returns the second (latest) hit, not the
earliest-encountered one as claimed. -/
theorem peak_tie_cex :
    peakHit ⟨0, 1⟩ [⟨3600000, 1⟩] = (⟨3600000, 1⟩ : Hit)
    ∧ peakHit ⟨0, 1⟩ [⟨3600000, 1⟩] ≠ (⟨0, 1⟩ : Hit) := by
  constructor
  · simp [peakHit]
  · simp [peakHit]

/-- C6 amended: for every non-empty bucket, peak selection returns a hit of
the bucket with the greatest height; when several hits have equal maximal
height it returns the latest-encountered one — the reduce
`(a, b) => a.meters > b.meters ? a : b` keeps the right element on equal
heights, as the append rule shows: a newly appended hit replaces the
current peak unless its height is strictly smaller. -/
theorem peakHit_max_latest (a : Hit) (l : List Hit) :
    peakHit a l ∈ a :: l
    ∧ (∀ b ∈ a :: l, b.meters ≤ (peakHit a l).meters)
    ∧ ∀ b : Hit, peakHit a (l ++ [b]) =
        if b.meters < (peakHit a l).meters then peakHit a l else b :=
  ⟨peakHit_mem a l, peakHit_le a l, fun b => peakHit_append a l b⟩

theorem peakHit_max_latest_witness :
    (⟨0, 1⟩ : Hit).meters ≤ (peakHit ⟨0, 1⟩ [⟨3600000, 1⟩]).meters :=
  (peakHit_max_latest ⟨0, 1⟩ [⟨3600000, 1⟩]).2.1 ⟨0, 1⟩ (List.mem_cons_self _ _)

/-! ## Evaluation of the binary64 rounding model -/

lemma log2floorAux_eq : ∀ (fuel : ℕ) (q : ℚ) (e : ℤ), (2:ℚ)^e ≤ q →
    q < (2:ℚ)^(e+1) → e.natAbs < fuel → log2floorAux fuel q = e := by
  intro fuel
  induction fuel with
  | zero => intro q e _ _ hf; omega
  | succ fuel ih =>
    intro q e h1 h2 hf
    by_cases hq1 : q < 1
    · have he : e < 0 := by
        by_contra hc
        push_neg at hc
        have hone : (1:ℚ) ≤ (2:ℚ)^e := by
          calc (1:ℚ) = (2:ℚ)^(0:ℤ) := (zpow_zero 2).symm
          _ ≤ (2:ℚ)^e := zpow_le_zpow_right₀ (by norm_num) hc
        linarith
      simp only [log2floorAux, if_pos hq1]
      have hz1 : (2:ℚ)^(e+1) = (2:ℚ)^e * 2 := zpow_add_one₀ (by norm_num) e
      have hz2 : (2:ℚ)^(e+1+1) = (2:ℚ)^(e+1) * 2 := zpow_add_one₀ (by norm_num) (e+1)
      have hrec := ih (2*q) (e+1) (by rw [hz1]; linarith) (by rw [hz2]; linarith)
        (by omega)
      rw [hrec]; ring
    · by_cases hq2 : 2 ≤ q
      · have he : 1 ≤ e := by
          by_contra hc
          push_neg at hc
          have hlt : q < (2:ℚ)^(1:ℤ) :=
            lt_of_lt_of_le h2 (zpow_le_zpow_right₀ (by norm_num) (by omega))
          rw [zpow_one] at hlt
          linarith
        simp only [log2floorAux, if_neg hq1, if_pos hq2]
        have hz1 : (2:ℚ)^e = (2:ℚ)^(e-1) * 2 := by
          rw [← zpow_add_one₀ (by norm_num : (2:ℚ) ≠ 0) (e-1), sub_add_cancel]
        have hz2 : (2:ℚ)^(e+1) = (2:ℚ)^e * 2 := zpow_add_one₀ (by norm_num) e
        have hstep : e - 1 + 1 = e := by ring
        have hrec := ih (q/2) (e-1) (by rw [hz1] at h1; linarith)
          (by rw [hstep]; rw [hz2] at h2; linarith) (by omega)
        rw [hrec]; ring
      · have hge : (1:ℚ) ≤ q := not_lt.mp hq1
        have hlt2 : q < 2 := not_le.mp hq2
        have he : e = 0 := by
          by_contra hc
          rcases lt_or_gt_of_ne hc with hneg | hpos
          · have hle : (2:ℚ)^(e+1) ≤ (2:ℚ)^(0:ℤ) :=
              zpow_le_zpow_right₀ (by norm_num) (by omega)
            rw [zpow_zero] at hle
            linarith
          · have hle : (2:ℚ)^(1:ℤ) ≤ (2:ℚ)^e :=
              zpow_le_zpow_right₀ (by norm_num) (by omega)
            rw [zpow_one] at hle
            linarith
        simp only [log2floorAux, if_neg hq1, if_neg hq2]
        exact he.symm

lemma rne_eq_of_lt_half (q : ℚ) (n : ℤ) (h1 : (n:ℚ) ≤ q) (h2 : q < n + 1/2) :
    rne q = n := by
  have hf : ⌊q⌋ = n := by
    rw [Int.floor_eq_iff]
    exact ⟨h1, by linarith⟩
  simp only [rne, hf]
  rw [if_pos (by linarith)]

lemma rne_eq_of_gt_half (q : ℚ) (n : ℤ) (h1 : (n:ℚ) + 1/2 < q) (h2 : q < n + 1) :
    rne q = n + 1 := by
  have hf : ⌊q⌋ = n := by
    rw [Int.floor_eq_iff]
    exact ⟨by linarith, by linarith⟩
  simp only [rne, hf]
  rw [if_neg (by linarith), if_pos (by linarith)]

lemma toDouble_of_bounds (q : ℚ) (e : ℤ) (h0 : 0 < q) (h1 : (2:ℚ)^e ≤ q)
    (h2 : q < (2:ℚ)^(e+1)) (he : e.natAbs < 64) :
    toDouble q = (rne (q * (2:ℚ)^((52:ℤ) - e)) : ℚ) * (2:ℚ)^(e - 52) := by
  rw [toDouble, if_neg (ne_of_gt h0), if_pos h0]
  simp only [roundDoublePos, log2floor, pow2]
  rw [log2floorAux_eq 64 q e h1 h2 he]

lemma toDouble_1005 : toDouble (1005/1000 : ℚ) = 1131529406376837 / 1125899906842624 := by
  rw [toDouble_of_bounds (1005/1000 : ℚ) 0 (by norm_num) (by norm_num) (by norm_num)
    (by norm_num)]
  rw [rne_eq_of_lt_half _ 4526117625507348 (by norm_num) (by norm_num)]
  norm_num

lemma toDouble_08 : toDouble (8/10 : ℚ) = 3602879701896397 / 4503599627370496 := by
  rw [toDouble_of_bounds (8/10 : ℚ) (-1) (by norm_num) (by norm_num) (by norm_num)
    (by norm_num)]
  rw [rne_eq_of_gt_half _ 7205759403792793 (by norm_num) (by norm_num)]
  norm_num

lemma jsMul_d1005_100 : jsMul (1131529406376837 / 1125899906842624 : ℚ) 100 =
    7072058789855231 / 70368744177664 := by
  rw [jsMul, show (1131529406376837 / 1125899906842624 : ℚ) * 100 =
    113152940637683700 / 1125899906842624 by norm_num]
  rw [toDouble_of_bounds _ 6 (by norm_num) (by norm_num) (by norm_num) (by norm_num)]
  rw [rne_eq_of_lt_half _ 7072058789855231 (by norm_num) (by norm_num)]
  norm_num

lemma jsMul_d08_100 : jsMul (3602879701896397 / 4503599627370496 : ℚ) 100 = 80 := by
  rw [jsMul, show (3602879701896397 / 4503599627370496 : ℚ) * 100 =
    360287970189639700 / 4503599627370496 by norm_num]
  rw [toDouble_of_bounds _ 6 (by norm_num) (by norm_num) (by norm_num) (by norm_num)]
  rw [rne_eq_of_lt_half _ 5629499534213120 (by norm_num) (by norm_num)]
  norm_num

/-- C5 counterexample: the JS value `metersToCm(1.005)` is 100, not 101 — the
binary64 product `1.005 * 100` is `100.49999999999999`, strictly below
`100.5`, so `Math.round` rounds down. -/
theorem metersToCm_1005_cex :
    metersToCm (toDouble (1005/1000 : ℚ)) = 100
    ∧ metersToCm (toDouble (1005/1000 : ℚ)) ≠ 101 := by
  have h100 : metersToCm (toDouble (1005/1000 : ℚ)) = 100 := by
    rw [metersToCm, toDouble_1005, jsMul_d1005_100]
    norm_num
  exact ⟨h100, by rw [h100]; decide⟩

/-- C5 amended: under the platform (IEEE-754 binary64) arithmetic the code
uses, `metersToCm` maps 0.8 meters to 80 cm and 1.005 meters to 100 cm
(not 101: the double product `1.005 * 100` falls just below 100.5). -/
theorem metersToCm_values :
    metersToCm (toDouble (8/10 : ℚ)) = 80
    ∧ metersToCm (toDouble (1005/1000 : ℚ)) = 100 := by
  constructor
  · rw [metersToCm, toDouble_08, jsMul_d08_100]
    norm_num
  · rw [metersToCm, toDouble_1005, jsMul_d1005_100]
    norm_num

/-! ## Properties of the reporting layer -/

lemma scanHits_eq_nil (ts : List ℤ) (hs : List ℚ) (thr : ℚ) (cutoff : ℤ)
    (hnone : ∀ (i : ℕ) (t : ℤ) (h : ℚ), ts[i]? = some t → hs[i]? = some h →
      t ≤ cutoff → ¬ thr ≤ h) : scanHits ts hs thr cutoff = [] := by
  induction ts generalizing hs with
  | nil => simp [scanHits]
  | cons t ts ih =>
    cases hs with
    | nil => simp [scanHits]
    | cons h hs' =>
      have htail : ∀ (i : ℕ) (t' : ℤ) (h' : ℚ), ts[i]? = some t' →
          hs'[i]? = some h' → t' ≤ cutoff → ¬ thr ≤ h' := by
        intro i t' h' ht' hh'
        exact hnone (i+1) t' h' (by simpa using ht') (by simpa using hh')
      simp only [scanHits]
      by_cases hc : cutoff < t
      · rw [if_pos hc]
        exact ih hs' htail
      · rw [if_neg hc, if_neg (hnone 0 t h (by simp) (by simp) (le_of_not_lt hc)),
          ih hs' htail]

/-- C9 counterexample: for a fetched series with no hour meeting the
threshold, the report line of src/index.js carries its literal double-encoded
glyph `â‰¥` (U+00E2 U+2030 U+00A5), so the returned string is neither the
claimed one with the two-character `>=` nor the one with the Unicode `≥`. -/
theorem no_waves_glyph_cex :
    checkLocation ⟨1, "0.8", 2, 0⟩ 0 ⟨"Tel Aviv", 32, 34⟩
      (.ok ⟨some ⟨some [0], some [0]⟩⟩) =
      "[Tel Aviv] No waves â‰¥ 0.8m in next 2 days"
    ∧ checkLocation ⟨1, "0.8", 2, 0⟩ 0 ⟨"Tel Aviv", 32, 34⟩
      (.ok ⟨some ⟨some [0], some [0]⟩⟩) ≠
      "[Tel Aviv] No waves >= 0.8m in next 2 days"
    ∧ checkLocation ⟨1, "0.8", 2, 0⟩ 0 ⟨"Tel Aviv", 32, 34⟩
      (.ok ⟨some ⟨some [0], some [0]⟩⟩) ≠
      "[Tel Aviv] No waves ≥ 0.8m in next 2 days" := by
  refine ⟨by decide, by decide, by decide⟩

/-- C9 amended: for every location whose fetched series contains no hour
meeting the threshold within the lookahead window, checkLocation of
src/index.js returns exactly the one-line string
`[<name>] No waves â‰¥ <threshold>m in next <days> days` — the glyph being
the double-encoded three characters U+00E2 U+2030 U+00A5 literally present
in that source, not `>=` and not `≥` — with the configured values
substituted; the src/unnamed/part_000 variant of the line instead carries
the genuine Unicode `≥`. -/
theorem checkLocation_no_waves (cfg : Config) (now : ℤ) (loc : Location)
    (times : List ℤ) (heights : List ℚ)
    (hnone : ∀ (i : ℕ) (t : ℤ) (h : ℚ), times[i]? = some t →
      heights[i]? = some h → t ≤ now + cfg.days * 24 * 3600 * 1000 →
      ¬ cfg.threshold ≤ h) :
    checkLocation cfg now loc (.ok ⟨some ⟨some times, some heights⟩⟩) =
      "[" ++ loc.name ++ "] No waves â‰¥ " ++ cfg.thresholdStr ++ "m in next " ++
        toString cfg.days ++ " days"
    ∧ noWavesLineP0 loc.name cfg =
      "[" ++ loc.name ++ "] No waves ≥ " ++ cfg.thresholdStr ++ "m in next " ++
        toString cfg.days ++ " days" := by
  have hnil := scanHits_eq_nil times heights cfg.threshold
    (now + cfg.days * 24 * 3600 * 1000) hnone
  have hbody : checkBody cfg now loc (.ok ⟨some ⟨some times, some heights⟩⟩) =
      .ok (noWavesLine loc.name cfg) := by
    simp only [checkBody, hnil]
    rfl
  rw [checkLocation, hbody]
  exact ⟨rfl, rfl⟩

theorem checkLocation_no_waves_witness :
    checkLocation ⟨1, "0.8", 2, 0⟩ 0 ⟨"Haifa", 32, 34⟩
      (.ok ⟨some ⟨some [0], some [0]⟩⟩) =
      "[" ++ "Haifa" ++ "] No waves â‰¥ " ++ "0.8" ++ "m in next " ++
        toString (2:ℤ) ++ " days" :=
  (checkLocation_no_waves ⟨1, "0.8", 2, 0⟩ 0 ⟨"Haifa", 32, 34⟩ [0] [0]
    (by intro i t h hti hhi hle; cases i with
      | zero => simp at hti hhi; subst hti; subst hhi; norm_num
      | succ i => simp at hti)).1

/-- C10 counterexample: a payload with mismatched array lengths (`time` has
an entry, `wave_height` is empty) raises no exception at all: the body
returns normally with the no-exceedance report, not an `Error:` line. -/
theorem mismatched_lengths_cex :
    checkBody ⟨1, "0.8", 2, 0⟩ 0 ⟨"Tel Aviv", 32, 34⟩
      (.ok ⟨some ⟨some [0], some []⟩⟩) =
      .ok "[Tel Aviv] No waves â‰¥ 0.8m in next 2 days"
    ∧ checkLocation ⟨1, "0.8", 2, 0⟩ 0 ⟨"Tel Aviv", 32, 34⟩
        (.ok ⟨some ⟨some [0], some []⟩⟩) =
      "[Tel Aviv] No waves â‰¥ 0.8m in next 2 days"
    ∧ checkLocation ⟨1, "0.8", 2, 0⟩ 0 ⟨"Tel Aviv", 32, 34⟩
        (.ok ⟨some ⟨some [0], some []⟩⟩) ≠
      errorLine "Tel Aviv" "Cannot read properties of undefined (reading '0')" := by
  refine ⟨rfl, by decide, by decide⟩

/-- C10 amended: checkLocation never propagates an exception: every error of
the body (fetch errors, and the `TypeError`s from a missing `hourly`
object, a missing `time` array, or a missing `wave_height` array read at a
reachable hour) is converted to the one-line `[<name>] Error: <message>`
report, and a successful body is returned as-is — but a payload with
mismatched array lengths raises nothing and yields a normal report. -/
theorem checkLocation_error_total (cfg : Config) (now : ℤ) (loc : Location)
    (fr : Except JsError Payload) :
    (∀ e, checkBody cfg now loc fr = .error e →
        checkLocation cfg now loc fr = errorLine loc.name e.message)
    ∧ (∀ s, checkBody cfg now loc fr = .ok s → checkLocation cfg now loc fr = s)
    ∧ (∀ e, fr = .error e → checkBody cfg now loc fr = .error e)
    ∧ (fr = .ok ⟨none⟩ → checkBody cfg now loc fr =
        .error ⟨"Cannot read properties of undefined (reading 'time')"⟩)
    ∧ (∀ w, fr = .ok ⟨some ⟨none, w⟩⟩ → checkBody cfg now loc fr =
        .error ⟨"Cannot read properties of undefined (reading 'forEach')"⟩)
    ∧ (∀ times, fr = .ok ⟨some ⟨some times, none⟩⟩ →
        (∃ (i : ℕ) (t : ℤ), times[i]? = some t ∧
          t ≤ now + cfg.days * 24 * 3600 * 1000) →
        checkBody cfg now loc fr =
          .error ⟨"Cannot read properties of undefined (reading '0')"⟩) := by
  refine ⟨fun e h => ?_, fun s h => ?_, fun e h => ?_, fun h => ?_,
    fun w h => ?_, fun times h hex => ?_⟩
  · rw [checkLocation, h]
  · rw [checkLocation, h]
  · rw [h]; rfl
  · rw [h]; rfl
  · rw [h]; rfl
  · rw [h]
    simp only [checkBody]
    have hcond : ¬ (times.all fun t =>
        decide (now + cfg.days * 24 * 3600 * 1000 < t)) = true := by
      intro hall
      rcases hex with ⟨i, t, hti, hle⟩
      have hmem : t ∈ times := by
        have := List.getElem?_eq_some_iff.mp hti
        rcases this with ⟨hi, hgi⟩
        exact hgi ▸ List.getElem_mem hi
      have := List.all_eq_true.mp hall t hmem
      simp at this
      omega
    rw [if_neg hcond]

theorem checkLocation_error_total_witness :
    checkLocation ⟨1, "0.8", 2, 0⟩ 0 ⟨"Tel Aviv", 32, 34⟩
      (.error ⟨"API error 500"⟩) = errorLine "Tel Aviv" "API error 500" := by
  have h := checkLocation_error_total ⟨1, "0.8", 2, 0⟩ 0 ⟨"Tel Aviv", 32, 34⟩
    (.error ⟨"API error 500"⟩)
  exact h.1 ⟨"API error 500"⟩ (h.2.2.1 ⟨"API error 500"⟩ rfl)

/-- C2: the composite run produces exactly one block per configured location,
in input order; the block at index `i` is a function of that location and
its own fetch result alone (so a fetch error in one location leaves every
other block unchanged), and a location whose body fails yields the one-line
`[<name>] Error: <message>` block. -/
theorem run_isolation (cfg : Config) (now : ℤ) (locs : List Location)
    (fetchOf : Location → Except JsError Payload) :
    (runOnceReports cfg now locs fetchOf).length = locs.length
    ∧ (∀ i : ℕ, (runOnceReports cfg now locs fetchOf)[i]? =
        (locs[i]?).map fun l => checkLocation cfg now l (fetchOf l))
    ∧ (∀ loc e, checkBody cfg now loc (fetchOf loc) = .error e →
        checkLocation cfg now loc (fetchOf loc) = errorLine loc.name e.message)
    ∧ (∀ g : Location → Except JsError Payload, ∀ (i : ℕ) (l : Location),
        locs[i]? = some l → fetchOf l = g l →
        (runOnceReports cfg now locs fetchOf)[i]? =
          (runOnceReports cfg now locs g)[i]?)
    ∧ runOnceMessage cfg now locs fetchOf =
        String.intercalate "\n\n" (runOnceReports cfg now locs fetchOf) := by
  refine ⟨by simp [runOnceReports], fun i => by simp [runOnceReports],
    fun loc e h => by rw [checkLocation, h], ?_, rfl⟩
  intro g i l hl hfg
  simp [runOnceReports, hl, hfg]

theorem run_isolation_witness :
    checkLocation ⟨1, "0.8", 2, 0⟩ 0 ⟨"Tel Aviv", 32, 34⟩
      ((fun _ : Location =>
        (Except.error ⟨"API error 500"⟩ : Except JsError Payload))
        ⟨"Tel Aviv", 32, 34⟩) =
      errorLine "Tel Aviv" "API error 500" :=
  (run_isolation ⟨1, "0.8", 2, 0⟩ 0 [⟨"Tel Aviv", 32, 34⟩]
    (fun _ => .error ⟨"API error 500"⟩)).2.2.1
    ⟨"Tel Aviv", 32, 34⟩ ⟨"API error 500"⟩ rfl

/-- C4 counterexample: a success-status response whose body lacks the
`hourly` field (so both arrays are missing) is returned as-is by
fetchWaveForecast — no failure is raised by the fetch operation; the error
surfaces only later, inside checkLocation's processing. -/
theorem fetch_no_shape_check_cex :
    fetchWaveForecast ⟨true, 200, ⟨none⟩⟩ = .ok ⟨none⟩
    ∧ checkBody ⟨1, "0.8", 2, 0⟩ 0 ⟨"Tel Aviv", 32, 34⟩
        (fetchWaveForecast ⟨true, 200, ⟨none⟩⟩) =
      .error ⟨"Cannot read properties of undefined (reading 'time')"⟩ :=
  ⟨rfl, rfl⟩

/-- C4 amended: fetchWaveForecast fails exactly on a non-success HTTP status,
with the `API error <status>` message; the payload shape is never inspected
by the fetch — a malformed body is returned as-is, and its failure surfaces
later, inside checkLocation's processing. -/
theorem fetch_status_only (res : HttpResponse) :
    (res.ok = true → fetchWaveForecast res = .ok res.body)
    ∧ (res.ok = false → fetchWaveForecast res =
        .error ⟨"API error " ++ toString res.status⟩)
    ∧ (∀ cfg now loc, res.ok = true → res.body = ⟨none⟩ →
        checkBody cfg now loc (fetchWaveForecast res) =
          .error ⟨"Cannot read properties of undefined (reading 'time')"⟩) := by
  refine ⟨fun h => ?_, fun h => ?_, fun cfg now loc h hb => ?_⟩
  · rw [fetchWaveForecast, if_pos h]
  · rw [fetchWaveForecast, if_neg (by simp [h])]
  · rw [fetchWaveForecast, if_pos h, hb]
    rfl

theorem fetch_status_only_witness :
    fetchWaveForecast ⟨false, 500, ⟨none⟩⟩ = .error ⟨"API error 500"⟩ :=
  (fetch_status_only ⟨false, 500, ⟨none⟩⟩).2.1 rfl
